import Mathlib

/-!
Shallow embedding of `src/rust/src/anf.rs` (myia ANF graph IR substrate).

The Rust code stores graphs and nodes in two insert-only generational arenas
owned by a single `GraphManager`; handles (`GraphPtr`, `ANFNodePtr`) carry an
arena index plus a reference to their manager.  With one manager made explicit
as a state value, a handle reduces to its arena index; since the arenas are
insert-only in this code (no removal anywhere), the generation tag of
`generational_arena::Index` is constantly zero and is omitted.  Arenas are
modelled as lists with `insert` appending at the end and returning the old
length, which is exactly the behaviour of `generational_arena::Arena::insert`
when no slot was ever freed.  `HashSet` fields (`flags`, `roots`) are modelled
as duplicate-free insertion lists: `insert` appends when absent, `contains` is
membership; these are observably equivalent for the insert/contains operations
the code (resp. the spec) uses.  Dereferencing a handle (`Arena::get_mut`
followed by `unwrap`) is modelled by `Option`: `none` is the panic on a stale
handle.  Mutating methods thread the manager state explicitly and return
`Option` where the Rust code would panic on a stale handle.
-/

namespace Myia

/-- Handle to a graph slot (`GraphPtr { p: Index, manager }` in the source). -/
structure GraphPtr where
  p : Nat
deriving DecidableEq

/-- Handle to a node slot (`ANFNodePtr { p: Index, manager }` in the source). -/
structure ANFNodePtr where
  p : Nat
deriving DecidableEq

/-- `Value`: extensible payload of constants; the source has the single case
`Graph(GraphPtr)` ("Other types later"). -/
inductive Value where
  | Graph (g : GraphPtr)
deriving DecidableEq

/-- `ANFNodeType`: Apply(owner, operands), Parameter(owner), Constant(value). -/
inductive ANFNodeType where
  | Apply (g : GraphPtr) (inps : List ANFNodePtr)
  | Parameter (g : GraphPtr)
  | Constant (v : Value)
deriving DecidableEq

/-- `ANFNode { node: ANFNodeType }`. -/
structure ANFNode where
  node : ANFNodeType
deriving DecidableEq

/-- `Graph { parameters, return_, flags }`; `flags: HashSet<String>` is a
duplicate-free insertion list here. -/
structure Graph where
  parameters : List ANFNodePtr
  return_ : Option ANFNodePtr
  flags : List String
deriving DecidableEq

/-- `GraphManager { roots, all_nodes, graphs }`; the two `Cell<Arena<..>>`
fields are insert-only arenas, modelled as lists indexed by handle. -/
structure GraphManager where
  roots : List ANFNodePtr
  all_nodes : List ANFNode
  graphs : List Graph
deriving DecidableEq

namespace GraphManager

/-- `GraphManager::new()`: empty roots, empty arenas. -/
def new : GraphManager :=
  { roots := [], all_nodes := [], graphs := [] }

/-- `GraphManager::get_graph(p)`: arena lookup; `none` models the `unwrap`
panic on a slot that was never issued. -/
def get_graph (m : GraphManager) (p : GraphPtr) : Option Graph :=
  m.graphs[p.p]?

/-- `GraphManager::get_node(p)`: arena lookup; `none` models the `unwrap`
panic on a slot that was never issued. -/
def get_node (m : GraphManager) (p : ANFNodePtr) : Option ANFNode :=
  m.all_nodes[p.p]?

/-- `GraphManager::new_graph()`: insert an empty graph, return its handle. -/
def new_graph (m : GraphManager) : GraphPtr × GraphManager :=
  (⟨m.graphs.length⟩,
   { m with graphs := m.graphs ++ [{ parameters := [], return_ := none, flags := [] }] })

/-- `GraphManager::alloc_apply(params, graph)`: insert an Apply node. -/
def alloc_apply (m : GraphManager) (params : List ANFNodePtr) (graph : GraphPtr) :
    ANFNodePtr × GraphManager :=
  (⟨m.all_nodes.length⟩,
   { m with all_nodes := m.all_nodes ++ [{ node := ANFNodeType.Apply graph params }] })

/-- `GraphManager::alloc_param(graph)`: insert a Parameter node.  Note that
this method does not touch the graph's parameter list. -/
def alloc_param (m : GraphManager) (graph : GraphPtr) : ANFNodePtr × GraphManager :=
  (⟨m.all_nodes.length⟩,
   { m with all_nodes := m.all_nodes ++ [{ node := ANFNodeType.Parameter graph }] })

/-- `GraphManager::alloc_constant(val)`: insert a Constant node. -/
def alloc_constant (m : GraphManager) (val : Value) : ANFNodePtr × GraphManager :=
  (⟨m.all_nodes.length⟩,
   { m with all_nodes := m.all_nodes ++ [{ node := ANFNodeType.Constant val }] })

/-- Modelled from the spec: the source declares the field
`roots: HashSet<ANFNodePtr>` (src/rust/src/anf.rs line 174) but defines no
method on it; `add_root` follows spec §4.2 "Root set: `add_root(node)`,
`remove_root(node)`, `is_root(node)` — standard set semantics"
(`HashSet::insert`: insert if absent). -/
def add_root (m : GraphManager) (n : ANFNodePtr) : GraphManager :=
  if n ∈ m.roots then m else { m with roots := m.roots ++ [n] }

/-- Modelled from the spec: `remove_root(node)` with standard set semantics
(`HashSet::remove`); the source only declares the `roots` field. -/
def remove_root (m : GraphManager) (n : ANFNodePtr) : GraphManager :=
  { m with roots := m.roots.filter (fun x => x ≠ n) }

/-- Modelled from the spec: `is_root(node)` with standard set semantics
(`HashSet::contains`); the source only declares the `roots` field. -/
def is_root (m : GraphManager) (n : ANFNodePtr) : Bool :=
  n ∈ m.roots

end GraphManager

namespace GraphPtr

/-- `GraphPtr::get_output()`: the outer `Option` is handle dereference, the
inner one the `return_` field itself. -/
def get_output (m : GraphManager) (g : GraphPtr) : Option (Option ANFNodePtr) :=
  (m.get_graph g).map (fun gr => gr.return_)

/-- `GraphPtr::set_output(out)`: overwrite the graph's `return_` field. -/
def set_output (m : GraphManager) (g : GraphPtr) (out : ANFNodePtr) : Option GraphManager :=
  (m.get_graph g).map (fun gr =>
    { m with graphs := m.graphs.set g.p { gr with return_ := some out } })

/-- `GraphPtr::add_parameter()`: allocate a Parameter via the manager, then
push its handle onto this graph's parameter list. -/
def add_parameter (m : GraphManager) (g : GraphPtr) : Option (ANFNodePtr × GraphManager) :=
  let a := m.alloc_param g
  (a.2.get_graph g).map (fun gr =>
    (a.1, { a.2 with graphs := a.2.graphs.set g.p { gr with parameters := gr.parameters ++ [a.1] } }))

/-- `GraphPtr::constant(val)`: delegates to `alloc_constant` (the graph handle
is not used). -/
def constant (m : GraphManager) (_g : GraphPtr) (val : Value) : ANFNodePtr × GraphManager :=
  m.alloc_constant val

/-- `GraphPtr::apply(inputs)`: delegates to `alloc_apply` bound to this graph. -/
def apply (m : GraphManager) (g : GraphPtr) (inputs : List ANFNodePtr) :
    ANFNodePtr × GraphManager :=
  m.alloc_apply inputs g

/-- `GraphPtr::set_flag(flag)`: `HashSet::insert` on the graph's flag set. -/
def set_flag (m : GraphManager) (g : GraphPtr) (flag : String) : Option GraphManager :=
  (m.get_graph g).map (fun gr =>
    let gr2 := if flag ∈ gr.flags then gr else { gr with flags := gr.flags ++ [flag] }
    { m with graphs := m.graphs.set g.p gr2 })

/-- `GraphPtr::has_flag(flag)`: `HashSet::contains` on the graph's flag set. -/
def has_flag (m : GraphManager) (g : GraphPtr) (flag : String) : Option Bool :=
  (m.get_graph g).map (fun gr => decide (flag ∈ gr.flags))

end GraphPtr

/-- `ANFNodeInputIter { vals, p }`: owned snapshot of an Apply node's operand
list plus a cursor. -/
structure ANFNodeInputIter where
  vals : List ANFNodePtr
  p : Nat
deriving DecidableEq

namespace ANFNodeInputIter

/-- `ANFNodeInputIter::new(node)`: clone the operand list of an Apply node,
empty for the other kinds; cursor at 0. -/
def new (node : ANFNode) : ANFNodeInputIter :=
  { vals := match node.node with
      | ANFNodeType.Apply _ inps => inps
      | _ => []
    p := 0 }

/-- `Iterator::next` for `ANFNodeInputIter`: yield `vals[p]` (if any) and
advance the cursor. -/
def next (it : ANFNodeInputIter) : Option ANFNodePtr × ANFNodeInputIter :=
  (it.vals[it.p]?, { it with p := it.p + 1 })

/-- Repeatedly call `next`, collecting yielded items, for at most `fuel`
steps; with enough fuel this is the full sequence the iterator produces. -/
def drain : ANFNodeInputIter → Nat → List ANFNodePtr
  | _, 0 => []
  | it, fuel + 1 =>
    match it.next with
    | (some v, it2) => v :: drain it2 fuel
    | (none, _) => []

end ANFNodeInputIter

namespace ANFNodePtr

/-- `ANFNodePtr::incoming()`: build a fresh input iterator over the node's
operand snapshot; `none` models the stale-handle panic. -/
def incoming (m : GraphManager) (p : ANFNodePtr) : Option ANFNodeInputIter :=
  (m.get_node p).map ANFNodeInputIter.new

/-- `ANFNodePtr::value()`: inner `some v` iff the node is `Constant(v)`. -/
def value (m : GraphManager) (p : ANFNodePtr) : Option (Option Value) :=
  (m.get_node p).map (fun nd =>
    match nd.node with
    | ANFNodeType.Constant v => some v
    | _ => none)

/-- `ANFNodePtr::is_apply()`. -/
def is_apply (m : GraphManager) (p : ANFNodePtr) : Option Bool :=
  (m.get_node p).map (fun nd =>
    match nd.node with
    | ANFNodeType.Apply _ _ => true
    | _ => false)

/-- `ANFNodePtr::is_parameter()`. -/
def is_parameter (m : GraphManager) (p : ANFNodePtr) : Option Bool :=
  (m.get_node p).map (fun nd =>
    match nd.node with
    | ANFNodeType.Parameter _ => true
    | _ => false)

/-- `ANFNodePtr::is_constant()`. -/
def is_constant (m : GraphManager) (p : ANFNodePtr) : Option Bool :=
  (m.get_node p).map (fun nd =>
    match nd.node with
    | ANFNodeType.Constant _ => true
    | _ => false)

/-- `ANFNodePtr::is_constant_graph()`. -/
def is_constant_graph (m : GraphManager) (p : ANFNodePtr) : Option Bool :=
  (m.get_node p).map (fun nd =>
    match nd.node with
    | ANFNodeType.Constant (Value.Graph _) => true
    | _ => false)

end ANFNodePtr

/-- One public mutating operation of the interface, for reasoning about
arbitrary operation sequences. -/
inductive MOp where
  | newGraph
  | allocParam (g : GraphPtr)
  | allocConstant (v : Value)
  | allocApply (params : List ANFNodePtr) (g : GraphPtr)
  | addParameter (g : GraphPtr)
  | setOutput (g : GraphPtr) (n : ANFNodePtr)
  | setFlag (g : GraphPtr) (f : String)
  | addRoot (n : ANFNodePtr)
  | removeRoot (n : ANFNodePtr)
deriving DecidableEq

/-- The four pure allocation operations of the manager (the ones claim C1
ranges over). -/
def MOp.isAlloc : MOp → Bool
  | .newGraph => true
  | .allocParam _ => true
  | .allocConstant _ => true
  | .allocApply _ _ => true
  | _ => false

/-- Run one operation against the manager state, dropping the returned
handle; `none` models a panic on a stale handle. -/
def applyMOp (m : GraphManager) : MOp → Option GraphManager
  | .newGraph => some (m.new_graph).2
  | .allocParam g => some (m.alloc_param g).2
  | .allocConstant v => some (m.alloc_constant v).2
  | .allocApply ps g => some (m.alloc_apply ps g).2
  | .addParameter g => (GraphPtr.add_parameter m g).map (fun a => a.2)
  | .setOutput g n => GraphPtr.set_output m g n
  | .setFlag g f => GraphPtr.set_flag m g f
  | .addRoot n => some (m.add_root n)
  | .removeRoot n => some (m.remove_root n)

/-- Run a sequence of operations left to right. -/
def runOps (m : GraphManager) : List MOp → Option GraphManager
  | [] => some m
  | op :: ops => (applyMOp m op).bind (fun m1 => runOps m1 ops)

/-- Observable sequence produced by `incoming()`: build the iterator and call
`next` up to `fuel` times, collecting the yielded handles. -/
def incoming_drain (m : GraphManager) (p : ANFNodePtr) (fuel : Nat) :
    Option (List ANFNodePtr) :=
  (ANFNodePtr.incoming m p).map (fun it => it.drain fuel)

/-- Call `GraphPtr::add_parameter` k times, collecting the returned handles
in call order. -/
def add_params (m : GraphManager) (g : GraphPtr) : Nat → Option (List ANFNodePtr × GraphManager)
  | 0 => some ([], m)
  | k + 1 =>
    (GraphPtr.add_parameter m g).bind (fun a =>
      (add_params a.2 g k).map (fun r => (a.1 :: r.1, r.2)))

/-! Helper lemmas shared by the claim theorems. -/

/-- Writing back the value already stored at an index leaves a list unchanged. -/
theorem list_set_of_getElem? {α : Type _} :
    ∀ (l : List α) (i : Nat) (a : α), l[i]? = some a → l.set i a = l
  | [], i, a, h => by simp at h
  | x :: xs, 0, a, h => by
      simp only [List.getElem?_cons_zero, Option.some.injEq] at h
      simp [h]
  | x :: xs, i + 1, a, h => by
      simp only [List.getElem?_cons_succ] at h
      simp [List.set, list_set_of_getElem? xs i a h]

/-- Every operation leaves the node arena an extension of what it was. -/
theorem all_nodes_applyMOp {m m' : GraphManager} {op : MOp}
    (h : applyMOp m op = some m') : ∃ t, m'.all_nodes = m.all_nodes ++ t := by
  cases op with
  | newGraph =>
      simp only [applyMOp, Option.some.injEq] at h
      exact ⟨[], by rw [← h]; simp [GraphManager.new_graph]⟩
  | allocParam g =>
      simp only [applyMOp, Option.some.injEq] at h
      exact ⟨[{ node := ANFNodeType.Parameter g }], by rw [← h]; rfl⟩
  | allocConstant v =>
      simp only [applyMOp, Option.some.injEq] at h
      exact ⟨[{ node := ANFNodeType.Constant v }], by rw [← h]; rfl⟩
  | allocApply ps g =>
      simp only [applyMOp, Option.some.injEq] at h
      exact ⟨[{ node := ANFNodeType.Apply g ps }], by rw [← h]; rfl⟩
  | addParameter g =>
      cases hg : GraphManager.get_graph (m.alloc_param g).2 g with
      | none => simp [applyMOp, GraphPtr.add_parameter, hg] at h
      | some gr =>
          simp only [applyMOp, GraphPtr.add_parameter, hg, Option.map_some',
            Option.some.injEq] at h
          exact ⟨[{ node := ANFNodeType.Parameter g }], by rw [← h]; rfl⟩
  | setOutput g n =>
      cases hg : m.get_graph g with
      | none => simp [applyMOp, GraphPtr.set_output, hg] at h
      | some gr =>
          simp only [applyMOp, GraphPtr.set_output, hg, Option.map_some',
            Option.some.injEq] at h
          exact ⟨[], by rw [← h]; simp⟩
  | setFlag g f =>
      cases hg : m.get_graph g with
      | none => simp [applyMOp, GraphPtr.set_flag, hg] at h
      | some gr =>
          simp only [applyMOp, GraphPtr.set_flag, hg, Option.map_some',
            Option.some.injEq] at h
          exact ⟨[], by rw [← h]; simp⟩
  | addRoot n =>
      simp only [applyMOp, Option.some.injEq] at h
      refine ⟨[], ?_⟩
      rw [← h]
      simp only [GraphManager.add_root]
      split <;> simp
  | removeRoot n =>
      simp only [applyMOp, Option.some.injEq] at h
      exact ⟨[], by rw [← h]; simp [GraphManager.remove_root]⟩

/-- An allocation operation leaves the graph arena an extension of what it was. -/
theorem graphs_applyMOp_alloc {m m' : GraphManager} {op : MOp}
    (halloc : op.isAlloc = true) (h : applyMOp m op = some m') :
    ∃ t, m'.graphs = m.graphs ++ t := by
  cases op with
  | newGraph =>
      simp only [applyMOp, Option.some.injEq] at h
      exact ⟨[{ parameters := [], return_ := none, flags := [] }], by rw [← h]; rfl⟩
  | allocParam g =>
      simp only [applyMOp, Option.some.injEq] at h
      exact ⟨[], by rw [← h]; simp [GraphManager.alloc_param]⟩
  | allocConstant v =>
      simp only [applyMOp, Option.some.injEq] at h
      exact ⟨[], by rw [← h]; simp [GraphManager.alloc_constant]⟩
  | allocApply ps g =>
      simp only [applyMOp, Option.some.injEq] at h
      exact ⟨[], by rw [← h]; simp [GraphManager.alloc_apply]⟩
  | addParameter g => simp [MOp.isAlloc] at halloc
  | setOutput g n => simp [MOp.isAlloc] at halloc
  | setFlag g f => simp [MOp.isAlloc] at halloc
  | addRoot n => simp [MOp.isAlloc] at halloc
  | removeRoot n => simp [MOp.isAlloc] at halloc

/-- A node handle that dereferences keeps dereferencing to the same node
across any single operation. -/
theorem get_node_applyMOp {m m' : GraphManager} {op : MOp}
    (h : applyMOp m op = some m') {p : ANFNodePtr} {nd : ANFNode}
    (hp : m.get_node p = some nd) : m'.get_node p = some nd := by
  obtain ⟨t, ht⟩ := all_nodes_applyMOp h
  obtain ⟨hlt, he⟩ := List.getElem?_eq_some.mp hp
  simp only [GraphManager.get_node, ht, List.getElem?_append, if_pos hlt] at *
  exact hp

/-- A node handle that dereferences keeps dereferencing to the same node
across any sequence of operations. -/
theorem get_node_runOps {ops : List MOp} :
    ∀ {m m' : GraphManager}, runOps m ops = some m' →
      ∀ {p : ANFNodePtr} {nd : ANFNode}, m.get_node p = some nd → m'.get_node p = some nd := by
  induction ops with
  | nil => intro m m' h p nd hp; rw [← Option.some.inj h]; exact hp
  | cons op ops ih =>
      intro m m' h p nd hp
      cases h1 : applyMOp m op with
      | none => simp [runOps, h1] at h
      | some m1 =>
          simp only [runOps, h1, Option.bind_some] at h
          exact ih h (get_node_applyMOp h1 hp)

/-- A graph handle that dereferences keeps dereferencing to the same graph
across any sequence of allocation operations. -/
theorem get_graph_runOps_alloc {ops : List MOp} :
    ∀ {m m' : GraphManager}, (∀ op ∈ ops, op.isAlloc = true) → runOps m ops = some m' →
      ∀ {q : GraphPtr} {g : Graph}, m.get_graph q = some g → m'.get_graph q = some g := by
  induction ops with
  | nil => intro m m' _ h q g hq; rw [← Option.some.inj h]; exact hq
  | cons op ops ih =>
      intro m m' hall h q g hq
      cases h1 : applyMOp m op with
      | none => simp [runOps, h1] at h
      | some m1 =>
          simp only [runOps, h1, Option.bind_some] at h
          refine ih (fun o ho => hall o (List.mem_cons_of_mem op ho)) h ?_
          obtain ⟨t, ht⟩ := graphs_applyMOp_alloc (hall op (List.mem_cons_self op ops)) h1
          obtain ⟨hlt, he⟩ := List.getElem?_eq_some.mp hq
          simp only [GraphManager.get_graph, ht, List.getElem?_append, if_pos hlt] at *
          exact hq

/-- Draining an iterator with enough fuel yields the not-yet-visited suffix
of its snapshot. -/
theorem drain_eq_drop :
    ∀ (fuel : Nat) (vals : List ANFNodePtr) (q : Nat), vals.length - q ≤ fuel →
      ANFNodeInputIter.drain { vals := vals, p := q } fuel = vals.drop q := by
  intro fuel
  induction fuel with
  | zero =>
      intro vals q hq
      rw [ANFNodeInputIter.drain, List.drop_eq_nil_of_le (by omega)]
  | succ fuel ih =>
      intro vals q hq
      by_cases hlt : q < vals.length
      · have hv : vals[q]? = some (vals.get ⟨q, hlt⟩) := by
          simp [List.getElem?_eq_some, hlt]
        rw [ANFNodeInputIter.drain]
        simp only [ANFNodeInputIter.next, hv]
        rw [ih vals (q + 1) (by omega)]
        exact List.getElem_cons_drop vals q hlt
      · have hv : vals[q]? = none := List.getElem?_eq_none (by omega)
        rw [ANFNodeInputIter.drain]
        simp only [ANFNodeInputIter.next, hv]
        rw [List.drop_eq_nil_of_le (by omega)]

/-- The node allocated by `alloc_apply` dereferences to the Apply node over
exactly the given operand list. -/
theorem get_node_alloc_apply (m : GraphManager) (ps : List ANFNodePtr) (g : GraphPtr) :
    GraphManager.get_node (m.alloc_apply ps g).2 (m.alloc_apply ps g).1 =
      some { node := ANFNodeType.Apply g ps } := by
  simp [GraphManager.get_node, GraphManager.alloc_apply, List.getElem?_concat_length]

/-- C1: a handle issued by the manager keeps dereferencing to the same
logical payload (same node, resp. same graph contents) after any number of
later allocation operations; no allocation (`new_graph`, `alloc_param`,
`alloc_constant`, `alloc_apply`) invalidates a previously issued handle. -/
theorem handle_stability (m m' : GraphManager) (ops : List MOp)
    (hall : ∀ op ∈ ops, op.isAlloc = true) (hrun : runOps m ops = some m') :
    (∀ (p : ANFNodePtr) (nd : ANFNode), m.get_node p = some nd → m'.get_node p = some nd) ∧
    (∀ (q : GraphPtr) (g : Graph), m.get_graph q = some g → m'.get_graph q = some g) :=
  ⟨fun _ _ hp => get_node_runOps hrun hp,
   fun _ _ hq => get_graph_runOps_alloc hall hrun hq⟩

/-- Witness for C1 at a concrete input: a constant allocated first still
dereferences to its payload after a later graph and apply allocation. -/
theorem handle_stability_witness :
    GraphManager.get_node
      ((((GraphManager.new.alloc_constant (Value.Graph ⟨0⟩)).2.new_graph).2.alloc_apply
          [⟨0⟩] ⟨0⟩)).2 ⟨0⟩ =
      some { node := ANFNodeType.Constant (Value.Graph ⟨0⟩) } :=
  (handle_stability (GraphManager.new.alloc_constant (Value.Graph ⟨0⟩)).2
    ((((GraphManager.new.alloc_constant (Value.Graph ⟨0⟩)).2.new_graph).2.alloc_apply
        [⟨0⟩] ⟨0⟩)).2
    [MOp.newGraph, MOp.allocApply [⟨0⟩] ⟨0⟩]
    (by decide) (by rfl)).1 ⟨0⟩ _ (by rfl)

/-- C2: `apply(L)` produces an Apply node whose `incoming()` yields exactly
the handles of `L`, in order; the sequence is identical on every repeated
invocation (each invocation is an independent snapshot, unaffected by later
operations); `incoming()` of a Parameter or Constant node yields the empty
sequence. -/
theorem apply_incoming_fidelity (m : GraphManager) (g : GraphPtr) (L : List ANFNodePtr)
    (fuel : Nat) (hfuel : L.length ≤ fuel) :
    incoming_drain (GraphPtr.apply m g L).2 (GraphPtr.apply m g L).1 fuel = some L ∧
    (∀ (ops : List MOp) (m2 : GraphManager), runOps (GraphPtr.apply m g L).2 ops = some m2 →
        ANFNodePtr.incoming m2 (GraphPtr.apply m g L).1 =
          ANFNodePtr.incoming (GraphPtr.apply m g L).2 (GraphPtr.apply m g L).1) ∧
    (∀ (p : ANFNodePtr) (gp : GraphPtr),
        m.get_node p = some { node := ANFNodeType.Parameter gp } →
        incoming_drain m p fuel = some []) ∧
    (∀ (p : ANFNodePtr) (v : Value),
        m.get_node p = some { node := ANFNodeType.Constant v } →
        incoming_drain m p fuel = some []) := by
  refine ⟨?_, ?_, ?_, ?_⟩
  · simp only [incoming_drain, ANFNodePtr.incoming, GraphPtr.apply, get_node_alloc_apply,
      Option.map_some']
    rw [show ANFNodeInputIter.new { node := ANFNodeType.Apply g L } =
        { vals := L, p := 0 } from rfl]
    rw [drain_eq_drop fuel L 0 (by omega)]
    simp
  · intro ops m2 hrun
    have hn := get_node_runOps hrun (get_node_alloc_apply m L g)
    simp only [ANFNodePtr.incoming, GraphPtr.apply] at *
    rw [hn, get_node_alloc_apply]
  · intro p gp hp
    simp only [incoming_drain, ANFNodePtr.incoming, hp, Option.map_some']
    rw [show ANFNodeInputIter.new { node := ANFNodeType.Parameter gp } =
        { vals := [], p := 0 } from rfl]
    rw [drain_eq_drop fuel [] 0 (by simp)]
    simp
  · intro p v hp
    simp only [incoming_drain, ANFNodePtr.incoming, hp, Option.map_some']
    rw [show ANFNodeInputIter.new { node := ANFNodeType.Constant v } =
        { vals := [], p := 0 } from rfl]
    rw [drain_eq_drop fuel [] 0 (by simp)]
    simp

/-- Witness for C2 at a concrete input: applying over two handles yields
exactly those two handles in order. -/
theorem apply_incoming_fidelity_witness :
    incoming_drain (GraphPtr.apply GraphManager.new ⟨0⟩ [⟨5⟩, ⟨7⟩]).2
      (GraphPtr.apply GraphManager.new ⟨0⟩ [⟨5⟩, ⟨7⟩]).1 2 = some [⟨5⟩, ⟨7⟩] :=
  (apply_incoming_fidelity GraphManager.new ⟨0⟩ [⟨5⟩, ⟨7⟩] 2 (by decide)).1

/-- An operation other than `add_root n` never makes `n` a root. -/
theorem not_root_applyMOp {m m' : GraphManager} {op : MOp} {n : ANFNodePtr}
    (h : applyMOp m op = some m') (hne : op ≠ MOp.addRoot n)
    (hn : n ∉ m.roots) : n ∉ m'.roots := by
  cases op with
  | newGraph =>
      simp only [applyMOp, Option.some.injEq] at h
      rw [← h]; exact hn
  | allocParam g =>
      simp only [applyMOp, Option.some.injEq] at h
      rw [← h]; exact hn
  | allocConstant v =>
      simp only [applyMOp, Option.some.injEq] at h
      rw [← h]; exact hn
  | allocApply ps g =>
      simp only [applyMOp, Option.some.injEq] at h
      rw [← h]; exact hn
  | addParameter g =>
      cases hg : GraphManager.get_graph (m.alloc_param g).2 g with
      | none => simp [applyMOp, GraphPtr.add_parameter, hg] at h
      | some gr =>
          simp only [applyMOp, GraphPtr.add_parameter, hg, Option.map_some',
            Option.some.injEq] at h
          rw [← h]; exact hn
  | setOutput g n2 =>
      cases hg : m.get_graph g with
      | none => simp [applyMOp, GraphPtr.set_output, hg] at h
      | some gr =>
          simp only [applyMOp, GraphPtr.set_output, hg, Option.map_some',
            Option.some.injEq] at h
          rw [← h]; exact hn
  | setFlag g f =>
      cases hg : m.get_graph g with
      | none => simp [applyMOp, GraphPtr.set_flag, hg] at h
      | some gr =>
          simp only [applyMOp, GraphPtr.set_flag, hg, Option.map_some',
            Option.some.injEq] at h
          rw [← h]; exact hn
  | addRoot n2 =>
      have hnn : n2 ≠ n := fun e => hne (by rw [e])
      simp only [applyMOp, Option.some.injEq] at h
      rw [← h]
      simp only [GraphManager.add_root]
      split
      · exact hn
      · simp only [List.mem_append, List.mem_singleton]
        rintro (hmem | rfl)
        · exact hn hmem
        · exact hnn rfl
  | removeRoot n2 =>
      simp only [applyMOp, Option.some.injEq] at h
      rw [← h]
      simp only [GraphManager.remove_root, List.mem_filter]
      rintro ⟨hmem, _⟩
      exact hn hmem

/-- A sequence of operations containing no `add_root n` never makes `n` a
root. -/
theorem not_root_runOps {ops : List MOp} :
    ∀ {m m' : GraphManager} {n : ANFNodePtr}, runOps m ops = some m' →
      (∀ op ∈ ops, op ≠ MOp.addRoot n) → n ∉ m.roots → n ∉ m'.roots := by
  induction ops with
  | nil =>
      intro m m' n h _ hn
      rw [← Option.some.inj h]; exact hn
  | cons op ops ih =>
      intro m m' n h hne hn
      cases h1 : applyMOp m op with
      | none => simp [runOps, h1] at h
      | some m1 =>
          simp only [runOps, h1, Option.some_bind] at h
          exact ih h (fun o ho => hne o (List.mem_cons_of_mem op ho))
            (not_root_applyMOp h1 (hne op (List.mem_cons_self op ops)) hn)

/-- C3: root-set operations have standard set semantics: after `add_root n`,
`is_root n` is true; insertion is idempotent; and a handle for which
`add_root` was never called is never a root. -/
theorem root_set_semantics (m : GraphManager) (n : ANFNodePtr) :
    GraphManager.is_root (m.add_root n) n = true ∧
    (m.add_root n).add_root n = m.add_root n ∧
    (∀ (ops : List MOp) (m' : GraphManager), runOps GraphManager.new ops = some m' →
        (∀ op ∈ ops, op ≠ MOp.addRoot n) → m'.is_root n = false) := by
  have hmem : n ∈ (m.add_root n).roots := by
    simp only [GraphManager.add_root]
    split
    · assumption
    · simp
  refine ⟨?_, ?_, ?_⟩
  · simpa [GraphManager.is_root] using hmem
  · by_cases h0 : n ∈ m.roots
    · simp [GraphManager.add_root, h0]
    · simp [GraphManager.add_root, h0]
  · intro ops m' hrun hne
    have : n ∉ m'.roots := not_root_runOps hrun hne (by simp [GraphManager.new])
    simpa [GraphManager.is_root] using this

/-- Witness for C3 at a concrete input: the handle 0 is a root after
`add_root`, and is not a root in a manager built without `add_root`. -/
theorem root_set_semantics_witness :
    GraphManager.is_root (GraphManager.new.add_root ⟨0⟩) ⟨0⟩ = true ∧
    GraphManager.is_root (GraphManager.new.new_graph).2 ⟨0⟩ = false :=
  ⟨(root_set_semantics GraphManager.new ⟨0⟩).1,
   (root_set_semantics GraphManager.new ⟨0⟩).2.2 [MOp.newGraph]
     (GraphManager.new.new_graph).2 (by rfl) (by decide)⟩

/-- Explicit result of `GraphPtr::add_parameter` on a valid graph handle. -/
theorem add_parameter_eq {m : GraphManager} {g : GraphPtr} {gr : Graph}
    (h : m.get_graph g = some gr) :
    GraphPtr.add_parameter m g =
      some (⟨m.all_nodes.length⟩,
        { roots := m.roots,
          all_nodes := m.all_nodes ++ [{ node := ANFNodeType.Parameter g }],
          graphs := m.graphs.set g.p
            { gr with parameters := gr.parameters ++ [⟨m.all_nodes.length⟩] } }) := by
  have hg : GraphManager.get_graph (m.alloc_param g).2 g = some gr := h
  simp only [GraphPtr.add_parameter, hg, Option.map_some', Option.some.injEq]
  rfl

/-- C4 counterexample: on a fresh graph, `GraphManager::alloc_param` returns
a Parameter handle but leaves the graph's parameter list empty — it is not
one element longer and does not end with the returned handle. -/
theorem alloc_param_no_append_cex :
    (GraphManager.get_graph
        ((GraphManager.new.new_graph).2.alloc_param (GraphManager.new.new_graph).1).2
        (GraphManager.new.new_graph).1).map Graph.parameters = some [] ∧
    ¬ (GraphManager.get_graph
        ((GraphManager.new.new_graph).2.alloc_param (GraphManager.new.new_graph).1).2
        (GraphManager.new.new_graph).1).map Graph.parameters =
      some [((GraphManager.new.new_graph).2.alloc_param (GraphManager.new.new_graph).1).1] := by
  decide

/-- C4 (amended): `alloc_param(g)` allocates a Parameter node owned by `g`
but leaves `g`'s parameter list untouched; the append is performed by
`GraphPtr::add_parameter`, which calls `alloc_param` and then pushes the
returned handle, so after `add_parameter` the list is one element longer and
ends with the returned handle. -/
theorem add_parameter_allocates_and_appends (m : GraphManager) (g : GraphPtr) (gr : Graph)
    (h : m.get_graph g = some gr) :
    GraphManager.get_node (m.alloc_param g).2 (m.alloc_param g).1 =
      some { node := ANFNodeType.Parameter g } ∧
    (GraphManager.get_graph (m.alloc_param g).2 g).map Graph.parameters =
      some gr.parameters ∧
    (GraphPtr.add_parameter m g).map (fun a => a.1) = some (m.alloc_param g).1 ∧
    (GraphPtr.add_parameter m g).bind (fun a => (a.2.get_graph g).map Graph.parameters) =
      some (gr.parameters ++ [(m.alloc_param g).1]) := by
  obtain ⟨hlt, -⟩ := List.getElem?_eq_some.mp h
  refine ⟨?_, ?_, ?_, ?_⟩
  · simp [GraphManager.get_node, GraphManager.alloc_param, List.getElem?_concat_length]
  · exact congrArg (Option.map Graph.parameters) h
  · rw [add_parameter_eq h]; rfl
  · rw [add_parameter_eq h]
    simp only [Option.some_bind, GraphManager.get_graph, List.getElem?_set_self hlt,
      Option.map_some']
    rfl

/-- Witness for C4's amended theorem at a concrete input: on a fresh graph,
`add_parameter` leaves the parameter list equal to the one returned handle. -/
theorem add_parameter_allocates_and_appends_witness :
    (GraphPtr.add_parameter (GraphManager.new.new_graph).2 ⟨0⟩).bind
      (fun a => (a.2.get_graph ⟨0⟩).map Graph.parameters) = some [⟨0⟩] :=
  (add_parameter_allocates_and_appends (GraphManager.new.new_graph).2 ⟨0⟩
    { parameters := [], return_ := none, flags := [] } (by rfl)).2.2.2

/-- C5: for every supported Value case `v`, `constant(v)` produces a node
whose `value()` returns `v`, with `is_constant` true and `is_apply`,
`is_parameter` false; `value()` of an Apply or Parameter node is the empty
result (inner `none`), not an error. -/
theorem constant_round_trip (m : GraphManager) (g : GraphPtr) (v : Value) :
    ANFNodePtr.value (GraphPtr.constant m g v).2 (GraphPtr.constant m g v).1 =
      some (some v) ∧
    ANFNodePtr.is_constant (GraphPtr.constant m g v).2 (GraphPtr.constant m g v).1 =
      some true ∧
    ANFNodePtr.is_apply (GraphPtr.constant m g v).2 (GraphPtr.constant m g v).1 =
      some false ∧
    ANFNodePtr.is_parameter (GraphPtr.constant m g v).2 (GraphPtr.constant m g v).1 =
      some false ∧
    (∀ (p : ANFNodePtr) (gp : GraphPtr) (inps : List ANFNodePtr),
        m.get_node p = some { node := ANFNodeType.Apply gp inps } →
        ANFNodePtr.value m p = some none) ∧
    (∀ (p : ANFNodePtr) (gp : GraphPtr),
        m.get_node p = some { node := ANFNodeType.Parameter gp } →
        ANFNodePtr.value m p = some none) := by
  have hn : GraphManager.get_node (GraphPtr.constant m g v).2 (GraphPtr.constant m g v).1 =
      some { node := ANFNodeType.Constant v } := by
    simp [GraphManager.get_node, GraphPtr.constant, GraphManager.alloc_constant,
      List.getElem?_concat_length]
  refine ⟨?_, ?_, ?_, ?_, ?_, ?_⟩
  · simp [ANFNodePtr.value, hn]
  · simp [ANFNodePtr.is_constant, hn]
  · simp [ANFNodePtr.is_apply, hn]
  · simp [ANFNodePtr.is_parameter, hn]
  · intro p gp inps hp
    simp [ANFNodePtr.value, hp]
  · intro p gp hp
    simp [ANFNodePtr.value, hp]

/-- Witness for C5 at a concrete input: a constant holding the graph value
⟨3⟩ round-trips through `value()`. -/
theorem constant_round_trip_witness :
    ANFNodePtr.value (GraphPtr.constant GraphManager.new ⟨0⟩ (Value.Graph ⟨3⟩)).2
      (GraphPtr.constant GraphManager.new ⟨0⟩ (Value.Graph ⟨3⟩)).1 =
      some (some (Value.Graph ⟨3⟩)) :=
  (constant_round_trip GraphManager.new ⟨0⟩ (Value.Graph ⟨3⟩)).1

/-- C6: for every node allocated through the manager, exactly one of
`is_apply`, `is_parameter`, `is_constant` is true, and the three answers
never change across any later sequence of operations. -/
theorem kind_exclusivity (m : GraphManager) (p : ANFNodePtr) (nd : ANFNode)
    (h : m.get_node p = some nd) (ops : List MOp) (m' : GraphManager)
    (hrun : runOps m ops = some m') :
    ((ANFNodePtr.is_apply m p = some true ∧ ANFNodePtr.is_parameter m p = some false ∧
        ANFNodePtr.is_constant m p = some false) ∨
      (ANFNodePtr.is_apply m p = some false ∧ ANFNodePtr.is_parameter m p = some true ∧
        ANFNodePtr.is_constant m p = some false) ∨
      (ANFNodePtr.is_apply m p = some false ∧ ANFNodePtr.is_parameter m p = some false ∧
        ANFNodePtr.is_constant m p = some true)) ∧
    ANFNodePtr.is_apply m' p = ANFNodePtr.is_apply m p ∧
    ANFNodePtr.is_parameter m' p = ANFNodePtr.is_parameter m p ∧
    ANFNodePtr.is_constant m' p = ANFNodePtr.is_constant m p := by
  have h' := get_node_runOps hrun h
  obtain ⟨ndt⟩ := nd
  refine ⟨?_, ?_, ?_, ?_⟩
  · cases ndt with
    | Apply g inps =>
        exact Or.inl (by
          simp [ANFNodePtr.is_apply, ANFNodePtr.is_parameter, ANFNodePtr.is_constant, h])
    | Parameter g =>
        exact Or.inr (Or.inl (by
          simp [ANFNodePtr.is_apply, ANFNodePtr.is_parameter, ANFNodePtr.is_constant, h]))
    | Constant v =>
        exact Or.inr (Or.inr (by
          simp [ANFNodePtr.is_apply, ANFNodePtr.is_parameter, ANFNodePtr.is_constant, h]))
  · simp [ANFNodePtr.is_apply, h, h']
  · simp [ANFNodePtr.is_parameter, h, h']
  · simp [ANFNodePtr.is_constant, h, h']

/-- Witness for C6 at a concrete input: the kind answers for a constant node
are unchanged after a later graph allocation. -/
theorem kind_exclusivity_witness :
    ANFNodePtr.is_constant ((GraphManager.new.alloc_constant (Value.Graph ⟨0⟩)).2.new_graph).2
        ⟨0⟩ =
      ANFNodePtr.is_constant (GraphManager.new.alloc_constant (Value.Graph ⟨0⟩)).2 ⟨0⟩ :=
  (kind_exclusivity (GraphManager.new.alloc_constant (Value.Graph ⟨0⟩)).2 ⟨0⟩
    { node := ANFNodeType.Constant (Value.Graph ⟨0⟩) } (by rfl) [MOp.newGraph]
    ((GraphManager.new.alloc_constant (Value.Graph ⟨0⟩)).2.new_graph).2 (by rfl)).2.2.2

/-- Explicit result of `GraphPtr::set_output` on a valid graph handle. -/
theorem set_output_eq {m : GraphManager} {g : GraphPtr} {gr : Graph}
    (h : m.get_graph g = some gr) (n : ANFNodePtr) :
    GraphPtr.set_output m g n =
      some { m with graphs := m.graphs.set g.p { gr with return_ := some n } } := by
  simp [GraphPtr.set_output, h]

/-- C7: immediately after `set_output(n)`, `get_output()` returns `Some n`,
regardless of any earlier `set_output` calls on the same graph (shown both
for an arbitrary prior state and for an explicit overwritten write). -/
theorem set_output_latest (m : GraphManager) (g : GraphPtr) (n n1 : ANFNodePtr)
    (gr : Graph) (h : m.get_graph g = some gr) :
    (GraphPtr.set_output m g n).bind (fun m2 => GraphPtr.get_output m2 g) =
      some (some n) ∧
    (GraphPtr.set_output m g n1).bind (fun m1 =>
        (GraphPtr.set_output m1 g n).bind (fun m2 => GraphPtr.get_output m2 g)) =
      some (some n) := by
  obtain ⟨hlt, -⟩ := List.getElem?_eq_some.mp h
  constructor
  · rw [set_output_eq h n]
    simp [GraphPtr.get_output, GraphManager.get_graph, List.getElem?_set_self hlt]
  · rw [set_output_eq h n1]
    simp only [Option.some_bind]
    have h1 : GraphManager.get_graph
        { m with graphs := m.graphs.set g.p { gr with return_ := some n1 } } g =
        some { gr with return_ := some n1 } := by
      simp [GraphManager.get_graph, List.getElem?_set_self hlt]
    rw [set_output_eq h1 n]
    simp [GraphPtr.get_output, GraphManager.get_graph, List.getElem?_set_self,
      List.length_set, hlt]

/-- Witness for C7 at a concrete input: after two writes the second one is
observable. -/
theorem set_output_latest_witness :
    (GraphPtr.set_output (GraphManager.new.new_graph).2 ⟨0⟩ ⟨4⟩).bind (fun m1 =>
        (GraphPtr.set_output m1 ⟨0⟩ ⟨9⟩).bind (fun m2 => GraphPtr.get_output m2 ⟨0⟩)) =
      some (some ⟨9⟩) :=
  (set_output_latest (GraphManager.new.new_graph).2 ⟨0⟩ ⟨9⟩ ⟨4⟩
    { parameters := [], return_ := none, flags := [] } (by rfl)).2

/-- Repeated `add_parameter`: the handles come back in call order, are all
Parameter nodes owned by the graph, and are appended after the graph's
previous parameter list; previously valid node handles stay valid. -/
theorem add_params_spec :
    ∀ (k : Nat) (m : GraphManager) (g : GraphPtr) (gr : Graph),
      m.get_graph g = some gr →
      ∃ ps m', add_params m g k = some (ps, m') ∧ ps.length = k ∧
        (m'.get_graph g).map Graph.parameters = some (gr.parameters ++ ps) ∧
        (∀ q ∈ ps, m'.get_node q = some { node := ANFNodeType.Parameter g }) ∧
        (∀ (p2 : ANFNodePtr) (nd : ANFNode),
            m.get_node p2 = some nd → m'.get_node p2 = some nd) := by
  intro k
  induction k with
  | zero =>
      intro m g gr h
      exact ⟨[], m, rfl, rfl, by simpa using congrArg (Option.map Graph.parameters) h,
        by simp, fun _ _ hp => hp⟩
  | succ k ih =>
      intro m g gr h
      obtain ⟨hlt, -⟩ := List.getElem?_eq_some.mp h
      have hstep := add_parameter_eq h
      have hg1 : GraphManager.get_graph
          { roots := m.roots,
            all_nodes := m.all_nodes ++ [{ node := ANFNodeType.Parameter g }],
            graphs := m.graphs.set g.p
              { gr with parameters := gr.parameters ++ [⟨m.all_nodes.length⟩] } } g =
          some { gr with parameters := gr.parameters ++ [⟨m.all_nodes.length⟩] } := by
        simp [GraphManager.get_graph, List.getElem?_set_self hlt]
      obtain ⟨ps, m', h1, h2, h3, h4, h5⟩ := ih _ g _ hg1
      refine ⟨⟨m.all_nodes.length⟩ :: ps, m', ?_, by simp [h2], ?_, ?_, ?_⟩
      · simp only [add_params, hstep, Option.some_bind, h1, Option.map_some']
      · rw [h3]
        simp
      · intro q hq
        rcases List.mem_cons.mp hq with rfl | hq2
        · exact h5 _ _ (by
            simp [GraphManager.get_node, List.getElem?_concat_length])
        · exact h4 q hq2
      · intro p2 nd hp
        obtain ⟨hlt2, -⟩ := List.getElem?_eq_some.mp hp
        refine h5 p2 nd ?_
        simpa [GraphManager.get_node, List.getElem?_append, hlt2] using hp

/-- C8: on a graph whose parameter list is empty (as `new_graph` creates it),
calling `add_parameter` k times yields a parameter list of length k whose
elements are exactly the returned handles in call order, each a Parameter
node owned by the graph. -/
theorem parameter_order (m : GraphManager) (g : GraphPtr) (gr : Graph)
    (h : m.get_graph g = some gr) (hemp : gr.parameters = []) (k : Nat) :
    ∃ ps m', add_params m g k = some (ps, m') ∧ ps.length = k ∧
      (m'.get_graph g).map Graph.parameters = some ps ∧
      ∀ q ∈ ps, m'.get_node q = some { node := ANFNodeType.Parameter g } := by
  obtain ⟨ps, m', h1, h2, h3, h4, -⟩ := add_params_spec k m g gr h
  rw [hemp] at h3
  exact ⟨ps, m', h1, h2, by simpa using h3, h4⟩

/-- Witness for C8 at a concrete input: two `add_parameter` calls on a fresh
graph give a two-element parameter list of the returned handles. -/
theorem parameter_order_witness :
    ∃ ps m', add_params (GraphManager.new.new_graph).2 ⟨0⟩ 2 = some (ps, m') ∧
      ps.length = 2 ∧ (GraphManager.get_graph m' ⟨0⟩).map Graph.parameters = some ps ∧
      ∀ q ∈ ps, GraphManager.get_node m' q = some { node := ANFNodeType.Parameter ⟨0⟩ } :=
  parameter_order (GraphManager.new.new_graph).2 ⟨0⟩
    { parameters := [], return_ := none, flags := [] } (by rfl) (by rfl) 2

/-- Explicit result of `GraphPtr::set_flag` on a valid graph handle. -/
theorem set_flag_eq {m : GraphManager} {g : GraphPtr} {gr : Graph}
    (h : m.get_graph g = some gr) (f : String) :
    GraphPtr.set_flag m g f =
      some { m with graphs :=
               (m.graphs.set g.p
                 (if f ∈ gr.flags then gr else { gr with flags := gr.flags ++ [f] })) } := by
  simp [GraphPtr.set_flag, h]

/-- Setting one slot of the graph arena preserves "flag `f` is absent at slot
`j`", provided the written graph introduces `f` only if it was already
present at that slot. -/
theorem flag_absent_after_set {graphs : List Graph} {i j : Nat} {f : String}
    (hm : ∀ gr, graphs[j]? = some gr → f ∉ gr.flags)
    {gr2 X : Graph} (hg2 : graphs[i]? = some gr2)
    (hX : i = j → f ∈ X.flags → f ∈ gr2.flags) :
    ∀ gr, (graphs.set i X)[j]? = some gr → f ∉ gr.flags := by
  intro gr hgr
  rw [List.getElem?_set] at hgr
  by_cases hij : i = j
  · obtain ⟨hlt, -⟩ := List.getElem?_eq_some.mp hg2
    rw [if_pos hij, if_pos hlt] at hgr
    obtain rfl := Option.some.inj hgr
    subst hij
    exact fun hf => hm gr2 hg2 (hX rfl hf)
  · rw [if_neg hij] at hgr
    exact hm gr hgr

/-- An operation other than `set_flag g f` never makes flag `f` appear on
graph `g`. -/
theorem flag_absent_applyMOp {m m' : GraphManager} {op : MOp} {g : GraphPtr} {f : String}
    (h : applyMOp m op = some m') (hne : op ≠ MOp.setFlag g f)
    (hm : ∀ gr, m.get_graph g = some gr → f ∉ gr.flags) :
    ∀ gr, m'.get_graph g = some gr → f ∉ gr.flags := by
  cases op with
  | newGraph =>
      simp only [applyMOp, Option.some.injEq] at h
      intro gr hgr
      rw [← h] at hgr
      simp only [GraphManager.new_graph, GraphManager.get_graph,
        List.getElem?_append] at hgr
      split at hgr
      · exact hm gr hgr
      · cases hi : g.p - m.graphs.length with
        | zero =>
            rw [hi] at hgr
            simp only [List.getElem?_cons_zero, Option.some.injEq] at hgr
            rw [← hgr]
            simp
        | succ k =>
            rw [hi] at hgr
            simp at hgr
  | allocParam g2 =>
      simp only [applyMOp, Option.some.injEq] at h
      intro gr hgr
      rw [← h] at hgr
      exact hm gr hgr
  | allocConstant v =>
      simp only [applyMOp, Option.some.injEq] at h
      intro gr hgr
      rw [← h] at hgr
      exact hm gr hgr
  | allocApply ps g2 =>
      simp only [applyMOp, Option.some.injEq] at h
      intro gr hgr
      rw [← h] at hgr
      exact hm gr hgr
  | addParameter g2 =>
      cases hg2 : GraphManager.get_graph (m.alloc_param g2).2 g2 with
      | none => simp [applyMOp, GraphPtr.add_parameter, hg2] at h
      | some gr2 =>
          simp only [applyMOp, GraphPtr.add_parameter, hg2, Option.map_some',
            Option.some.injEq] at h
          intro gr hgr
          rw [← h] at hgr
          exact flag_absent_after_set
            (X := { gr2 with parameters := gr2.parameters ++ [(m.alloc_param g2).1] })
            hm hg2 (fun _ hf => hf) gr hgr
  | setOutput g2 n2 =>
      cases hg2 : m.get_graph g2 with
      | none => simp [applyMOp, GraphPtr.set_output, hg2] at h
      | some gr2 =>
          simp only [applyMOp, GraphPtr.set_output, hg2, Option.map_some',
            Option.some.injEq] at h
          intro gr hgr
          rw [← h] at hgr
          exact flag_absent_after_set (X := { gr2 with return_ := some n2 })
            hm hg2 (fun _ hf => hf) gr hgr
  | setFlag g2 f2 =>
      cases hg2 : m.get_graph g2 with
      | none => simp [applyMOp, GraphPtr.set_flag, hg2] at h
      | some gr2 =>
          simp only [applyMOp, GraphPtr.set_flag, hg2, Option.map_some',
            Option.some.injEq] at h
          intro gr hgr
          rw [← h] at hgr
          refine flag_absent_after_set hm hg2 ?_ gr hgr
          intro hij hf
          have hgg : g2 = g := by
            cases g2; cases g
            simpa using hij
          have hff : f2 ≠ f := by
            intro e
            exact hne (by rw [hgg, e])
          split at hf
          · exact hf
          · simp only [List.mem_append, List.mem_singleton] at hf
            rcases hf with hf | rfl
            · exact hf
            · exact absurd rfl hff
  | addRoot n =>
      simp only [applyMOp, Option.some.injEq] at h
      intro gr hgr
      rw [← h] at hgr
      simp only [GraphManager.add_root] at hgr
      split at hgr
      · exact hm gr hgr
      · exact hm gr hgr
  | removeRoot n =>
      simp only [applyMOp, Option.some.injEq] at h
      intro gr hgr
      rw [← h] at hgr
      exact hm gr hgr

/-- A sequence of operations containing no `set_flag g f` never makes flag
`f` appear on graph `g`. -/
theorem flag_absent_runOps {ops : List MOp} :
    ∀ {m m' : GraphManager} {g : GraphPtr} {f : String}, runOps m ops = some m' →
      (∀ op ∈ ops, op ≠ MOp.setFlag g f) →
      (∀ gr, m.get_graph g = some gr → f ∉ gr.flags) →
      ∀ gr, m'.get_graph g = some gr → f ∉ gr.flags := by
  induction ops with
  | nil =>
      intro m m' g f h _ hm
      rw [← Option.some.inj h]
      exact hm
  | cons op ops ih =>
      intro m m' g f h hne hm
      cases h1 : applyMOp m op with
      | none => simp [runOps, h1] at h
      | some m1 =>
          simp only [runOps, h1, Option.some_bind] at h
          exact ih h (fun o ho => hne o (List.mem_cons_of_mem op ho))
            (flag_absent_applyMOp h1 (hne op (List.mem_cons_self op ops)) hm)

/-- C9: graph flags behave as a set of strings: `has_flag f` is false on a
graph on which `set_flag f` was never called, true immediately after
`set_flag f`, and `set_flag f` is idempotent — repeating it leaves the whole
manager state unchanged. -/
theorem flags_are_a_set (m : GraphManager) (g : GraphPtr) (f : String) (gr : Graph)
    (h : m.get_graph g = some gr) :
    (GraphPtr.set_flag m g f).bind (fun m1 => GraphPtr.has_flag m1 g f) = some true ∧
    (GraphPtr.set_flag m g f).bind (fun m1 => GraphPtr.set_flag m1 g f) =
      GraphPtr.set_flag m g f ∧
    (∀ (ops : List MOp) (m' : GraphManager) (gr2 : Graph),
        runOps GraphManager.new ops = some m' → (∀ op ∈ ops, op ≠ MOp.setFlag g f) →
        m'.get_graph g = some gr2 → GraphPtr.has_flag m' g f = some false) := by
  obtain ⟨hlt, -⟩ := List.getElem?_eq_some.mp h
  have hX : GraphManager.get_graph
      { m with graphs :=
          (m.graphs.set g.p
            (if f ∈ gr.flags then gr else { gr with flags := gr.flags ++ [f] })) } g =
      some (if f ∈ gr.flags then gr else { gr with flags := gr.flags ++ [f] }) := by
    simp [GraphManager.get_graph, List.getElem?_set_self hlt]
  have hfX : f ∈ (if f ∈ gr.flags then gr else { gr with flags := gr.flags ++ [f] }).flags := by
    split
    · assumption
    · simp
  refine ⟨?_, ?_, ?_⟩
  · rw [set_flag_eq h f]
    simp only [Option.some_bind, GraphPtr.has_flag, hX, Option.map_some',
      Option.some.injEq]
    simpa using hfX
  · rw [set_flag_eq h f]
    simp only [Option.some_bind]
    rw [set_flag_eq hX f, if_pos hfX]
    rw [List.set_set]
  · intro ops m' gr2 hrun hne hgr2
    have hbase : ∀ gr3, GraphManager.get_graph GraphManager.new g = some gr3 →
        f ∉ gr3.flags := by
      intro gr3 hgr3
      simp [GraphManager.new, GraphManager.get_graph] at hgr3
    have habs := flag_absent_runOps hrun hne hbase gr2 hgr2
    simp [GraphPtr.has_flag, hgr2, habs]

/-- Witness for C9 at a concrete input: setting a flag on a fresh graph makes
`has_flag` true. -/
theorem flags_are_a_set_witness :
    (GraphPtr.set_flag (GraphManager.new.new_graph).2 ⟨0⟩ "core").bind
      (fun m1 => GraphPtr.has_flag m1 ⟨0⟩ "core") = some true :=
  (flags_are_a_set (GraphManager.new.new_graph).2 ⟨0⟩ "core"
    { parameters := [], return_ := none, flags := [] } (by rfl)).1

/-- Distinct graph handles address distinct arena slots. -/
theorem graphptr_ne_idx {q g : GraphPtr} (hq : q ≠ g) : g.p ≠ q.p := by
  intro e
  apply hq
  cases q
  cases g
  simpa using e.symm

/-- C10: each mutating graph operation touches only the field it names:
`set_output` changes only the graph's return field (its parameters and
flags, every other graph, the node arena and the root set are unchanged);
`set_flag` changes only the flag set; `add_parameter` changes only the
parameter list (one appended entry) besides allocating the one new
Parameter node. -/
theorem frame_conditions (m : GraphManager) (g : GraphPtr) (gr : Graph)
    (h : m.get_graph g = some gr) (n : ANFNodePtr) (f : String) :
    ((GraphPtr.set_output m g n).map GraphManager.all_nodes = some m.all_nodes ∧
      (GraphPtr.set_output m g n).map GraphManager.roots = some m.roots ∧
      (∀ q : GraphPtr, q ≠ g →
          (GraphPtr.set_output m g n).bind (fun m2 => m2.get_graph q) = m.get_graph q) ∧
      (GraphPtr.set_output m g n).bind (fun m2 => m2.get_graph g) =
        some { gr with return_ := some n }) ∧
    ((GraphPtr.set_flag m g f).map GraphManager.all_nodes = some m.all_nodes ∧
      (GraphPtr.set_flag m g f).map GraphManager.roots = some m.roots ∧
      (∀ q : GraphPtr, q ≠ g →
          (GraphPtr.set_flag m g f).bind (fun m2 => m2.get_graph q) = m.get_graph q) ∧
      (GraphPtr.set_flag m g f).bind (fun m2 => m2.get_graph g) =
        some (if f ∈ gr.flags then gr else { gr with flags := gr.flags ++ [f] })) ∧
    ((GraphPtr.add_parameter m g).map (fun a => a.2.roots) = some m.roots ∧
      (GraphPtr.add_parameter m g).map (fun a => a.2.all_nodes) =
        some (m.all_nodes ++ [{ node := ANFNodeType.Parameter g }]) ∧
      (∀ q : GraphPtr, q ≠ g →
          (GraphPtr.add_parameter m g).bind (fun a => a.2.get_graph q) = m.get_graph q) ∧
      (GraphPtr.add_parameter m g).bind (fun a => a.2.get_graph g) =
        some { gr with parameters := gr.parameters ++ [(m.alloc_param g).1] }) := by
  obtain ⟨hlt, -⟩ := List.getElem?_eq_some.mp h
  rw [set_output_eq h n, set_flag_eq h f, add_parameter_eq h]
  refine ⟨⟨rfl, rfl, ?_, ?_⟩, ⟨rfl, rfl, ?_, ?_⟩, ⟨rfl, rfl, ?_, ?_⟩⟩
  · intro q hq
    simp [GraphManager.get_graph, List.getElem?_set_ne (graphptr_ne_idx hq)]
  · simp [GraphManager.get_graph, List.getElem?_set_self hlt]
  · intro q hq
    simp [GraphManager.get_graph, List.getElem?_set_ne (graphptr_ne_idx hq)]
  · simp [GraphManager.get_graph, List.getElem?_set_self hlt]
  · intro q hq
    simp [GraphManager.get_graph, List.getElem?_set_ne (graphptr_ne_idx hq)]
  · simp [GraphManager.get_graph, List.getElem?_set_self hlt, GraphManager.alloc_param]

/-- Witness for C10 at a concrete input: `set_output` leaves the node arena
unchanged and `add_parameter` leaves the root set unchanged. -/
theorem frame_conditions_witness :
    (GraphPtr.set_output (GraphManager.new.new_graph).2 ⟨0⟩ ⟨2⟩).map
        GraphManager.all_nodes = some (GraphManager.new.new_graph).2.all_nodes ∧
    (GraphPtr.add_parameter (GraphManager.new.new_graph).2 ⟨0⟩).map (fun a => a.2.roots) =
      some (GraphManager.new.new_graph).2.roots :=
  ⟨(frame_conditions (GraphManager.new.new_graph).2 ⟨0⟩
      { parameters := [], return_ := none, flags := [] } (by rfl) ⟨2⟩ "core").1.1,
   (frame_conditions (GraphManager.new.new_graph).2 ⟨0⟩
      { parameters := [], return_ := none, flags := [] } (by rfl) ⟨2⟩ "core").2.2.1⟩

end Myia
